import Mathlib

/-!
Verification development for the front end of a small expression-oriented
language: a tokenizer (`src/tokenizer.rs`), a precedence-climbing expression
parser (`src/expression.rs`) and a block/statement parser (`src/block.rs`).

The embedding is shallow: the character source is a `List Char`, the lazy
peekable token stream of the Rust code is modelled by the pure function
`tokNext` (the Rust `Peekable` cache is observationally equivalent to
re-running the pure tokenizer, so `tokPeek` is the first component of
`tokNext`), and the mutually recursive parsing functions are modelled with
an explicit fuel parameter (`parseFns`), every recursive call consuming one
unit of fuel.  Fuel exhaustion yields the distinguished error
`fuelErr`, which no concrete theorem below ever reaches.

Unicode character classes of Rust (`char::is_numeric`, `char::is_alphabetic`,
`char::is_whitespace`, `char::is_alphanumeric`) are modelled by their ASCII
restrictions (Lean's `Char.isDigit`, `Char.isAlpha`, `Char.isWhitespace`,
`Char.isAlphanum`); `char::is_ascii_punctuation` is modelled exactly.
Numeric literal values (`f64` obtained by `str::parse` on a digit run) are
modelled as `Nat`: a `Number` token's text is a non-empty run of ASCII
digits, on which `f64` parsing is exact for every value mentioned in this
development.
-/

namespace LangFE

/-- Rust `char::is_numeric`, restricted to ASCII. -/
def isNumericChar (c : Char) : Bool := c.isDigit

/-- Rust `char::is_alphabetic`, restricted to ASCII. -/
def isAlphabeticChar (c : Char) : Bool := c.isAlpha

/-- Rust `char::is_alphanumeric`, restricted to ASCII. -/
def isAlphanumericChar (c : Char) : Bool := c.isAlphanum

/-- Rust `char::is_whitespace`, restricted to ASCII. -/
def isWhitespaceChar (c : Char) : Bool := c.isWhitespace

/-- Rust `char::is_ascii_punctuation`: the four ASCII punctuation ranges. -/
def isAsciiPunctuationChar (c : Char) : Bool :=
  (0x21 ≤ c.toNat && c.toNat ≤ 0x2f) || (0x3a ≤ c.toNat && c.toNat ≤ 0x40) ||
  (0x5b ≤ c.toNat && c.toNat ≤ 0x60) || (0x7b ≤ c.toNat && c.toNat ≤ 0x7e)

/-- `Token` from `src/tokenizer.rs`. -/
inductive Token where
  | number (s : String)
  | operator (c : Char)
  | symbol (s : String)
deriving DecidableEq

deriving instance DecidableEq for Except

/-- The `Display` instance of `Token` from `src/tokenizer.rs`. -/
def renderToken : Token → String
  | .number n => "Number(" ++ n ++ ")"
  | .operator c => "Operator(" ++ String.singleton c ++ ")"
  | .symbol s => "Symbol(" ++ s ++ ")"

/-- `TokenizerInner::next_number`: consume the maximal run of digits; then,
without consuming, check the following character: if it is alphanumeric
(necessarily alphabetic, the digit run being maximal) fail. -/
def nextNumber (cs : List Char) : Except String Token × List Char :=
  let str := cs.takeWhile isNumericChar
  match cs.dropWhile isNumericChar with
  | c :: rest =>
    if isAlphanumericChar c then
      (.error "Number cannot be followed by a letter", c :: rest)
    else (.ok (.number ⟨str⟩), c :: rest)
  | [] => (.ok (.number ⟨str⟩), [])

/-- `TokenizerInner::next_symbol`: the maximal alphanumeric run. -/
def nextSymbol (cs : List Char) : String × List Char :=
  (⟨cs.takeWhile isAlphanumericChar⟩, cs.dropWhile isAlphanumericChar)

/-- `<TokenizerInner as Iterator>::next`: skip whitespace, then dispatch on
the first character (digit → number, ASCII punctuation → one-character
operator, alphanumeric → symbol, anything else / end of input → `none`).
Returns the produced item together with the remaining characters; the
`none` cases leave the characters untouched (the single-character `Operator`
consumption of `next_operator` is inlined, its end-of-input branch being
unreachable under the `peek` guard). -/
def tokNext : List Char → Option (Except String Token) × List Char
  | [] => (none, [])
  | c :: cs =>
    if isWhitespaceChar c then tokNext cs
    else if isNumericChar c then
      (some (nextNumber (c :: cs)).1, (nextNumber (c :: cs)).2)
    else if isAsciiPunctuationChar c then (some (.ok (.operator c)), cs)
    else if isAlphanumericChar c then
      (some (.ok (.symbol (nextSymbol (c :: cs)).1)), (nextSymbol (c :: cs)).2)
    else (none, c :: cs)

/-- `Tokenizer::peek`: non-consuming lookahead.  The Rust `Peekable` caches
the underlying pure iterator, so peeking is re-running `tokNext` and
discarding the advanced state. -/
def tokPeek (cs : List Char) : Option (Except String Token) :=
  (tokNext cs).1

/-- `Tokenizer::expect_symbol`. -/
def expectSymbol (cs : List Char) : Except String (String × List Char) :=
  match tokNext cs with
  | (some (.ok (.symbol s)), rest) => .ok (s, rest)
  | (some (.ok (.number n)), _) =>
    .error ("Expected symbol but found number: " ++ n)
  | (some (.ok (.operator c)), _) =>
    .error ("Expected symbol but found operator: " ++ String.singleton c)
  | (some (.error e), _) => .error e
  | (none, _) => .error "Expected symbol but found end of input"

/-- `Tokenizer::expect_operator`. -/
def expectOperator (cs : List Char) : Except String (Char × List Char) :=
  match tokNext cs with
  | (some (.ok (.operator c)), rest) => .ok (c, rest)
  | (some (.ok (.number n)), _) =>
    .error ("Expected operator but found number: " ++ n)
  | (some (.ok (.symbol s)), _) =>
    .error ("Expected operator but found symbol: " ++ s)
  | (some (.error e), _) => .error e
  | (none, _) => .error "Expected operator but found end of input"

/-- `Tokenizer::expect_operator_of`. -/
def expectOperatorOf (expected : Char) (cs : List Char) :
    Except String (List Char) :=
  match expectOperator cs with
  | .ok (c, rest) =>
    if c = expected then .ok rest
    else .error ("Expected operator '" ++ String.singleton expected ++
      "' but found '" ++ String.singleton c ++ "'")
  | .error e => .error e

mutual
/-- `Expression` from `src/expression.rs`.  The `f64` literal payload is
modelled as `Nat` (see the header comment). -/
inductive Expression where
  | literal (v : Nat)
  | var (name : String)
  | block (b : Block)
  | add (l r : Expression)
  | sub (l r : Expression)
  | mul (l r : Expression)
  | div (l r : Expression)

/-- `Line` from `src/block.rs`. -/
inductive Line where
  | expression (e : Expression)
  | letStatement (name : String) (value : Expression) (type_ : Option String)
  | returnStatement (e : Expression)

/-- `Block` from `src/block.rs`. -/
inductive Block where
  | mk (lines : List Line)
end

/-- The `lines` field of `Block`. -/
def Block.lines : Block → List Line
  | .mk ls => ls

/-- `Block::has_value`: true iff the last line is a `ReturnStatement`. -/
def Block.hasValue (b : Block) : Bool :=
  match b.lines.getLast? with
  | some (Line.returnStatement _) => true
  | _ => false

/-- The numeric value of a digit run. -/
def digitsToNat (cs : List Char) : Nat :=
  cs.foldl (fun a c => a * 10 + (c.toNat - 48)) 0

/-- Models `str::parse::<f64>` as used on `Number` token text: such text is
always a run of digits, on which parsing succeeds with the denoted value
(modelled as `Nat`; exact for all values in this development).  On any other
text it fails with the message the Rust code would produce by formatting
`ParseFloatError`. -/
def parseNumber (s : String) : Except String Nat :=
  if s.length ≠ 0 ∧ s.data.all isNumericChar then .ok (digitsToNat s.data)
  else .error "Failed to parse number: invalid float literal"

/-- `Expression::precedence` from `src/expression.rs`. -/
def precedence (c : Char) : Int :=
  match c with
  | '*' | '/' => 1
  | '+' | '-' => 2
  | ')' => 100
  | _ => 100

/-- The final `match operator` of `Expression::parse_prec`: build the binary
node for the consumed operator character. -/
def mkBinary (op : Char) (l r : Expression) : Except String Expression :=
  match op with
  | '*' => .ok (.mul l r)
  | '/' => .ok (.div l r)
  | '+' => .ok (.add l r)
  | '-' => .ok (.sub l r)
  | c => .error ("Expected valid operator but found " ++ String.singleton c)

/-- The error produced when the fuel of the fueled interpreter runs out.
This is an artifact of the embedding, reached by no concrete run below. -/
def fuelErr : String := "ran out of recursion fuel"

/-- One fuel layer of the mutually recursive parsing functions: each field is
one Rust parsing function, with every recursive call routed through the
previous layer `p`. -/
structure ParseFns where
  atom : List Char → Except String (Expression × List Char)
  prec : Int → List Char → Except String (Expression × List Char)
  block : List Char → Except String (Block × List Char)
  blines : List Char → List Line → Except String (List Line × List Char)
  aline : List Char → List Line → Except String (List Line × List Char)
  plet : List Char → Except String (Line × List Char)
  pret : List Char → Except String (Line × List Char)

/-- The `prec == 0` arm of `Expression::parse_prec`: parse an atom.  If the
next token is `{`, parse a block and require `has_value()`; otherwise
consume one token and dispatch: number literal, variable, or parenthesized
expression. -/
def atomF (p : ParseFns) (cs : List Char) :
    Except String (Expression × List Char) :=
  if tokPeek cs = some (.ok (.operator '{')) then
    match p.block cs with
    | .error e => .error e
    | .ok (b, cs₁) =>
      if b.hasValue then .ok (.block b, cs₁)
      else .error "Expected block with return value"
  else
    match tokNext cs with
    | (none, _) => .error "Expected expression but found end of input"
    | (some (.error e), _) => .error e
    | (some (.ok (.number n)), cs₁) =>
      match parseNumber n with
      | .error e => .error e
      | .ok v => .ok (.literal v, cs₁)
    | (some (.ok (.symbol s)), cs₁) => .ok (.var s, cs₁)
    | (some (.ok (.operator '(')), cs₁) =>
      match p.prec 3 cs₁ with
      | .error e => .error e
      | .ok (inside, cs₂) =>
        match expectOperatorOf ')' cs₂ with
        | .error e => .error e
        | .ok cs₃ => .ok (inside, cs₃)
    | (some (.ok t), _) =>
      .error ("Expected number or symbol but found " ++ renderToken t)

/-- `Expression::parse_prec`: obtain the left operand (atom at level 0,
otherwise recurse one level tighter), then peek: a non-operator or an
operator binding looser than the current level is left to the caller;
otherwise consume the operator, parse the right operand at the *same*
level, and combine. -/
def precF (p : ParseFns) (prec : Int) (cs : List Char) :
    Except String (Expression × List Char) :=
  match (if prec = 0 then p.atom cs else p.prec (prec - 1) cs) with
  | .error e => .error e
  | .ok (left, cs₁) =>
    match tokPeek cs₁ with
    | none => .ok (left, cs₁)
    | some (.error e) => .error e
    | some (.ok (.operator c)) =>
      if precedence c ≤ prec then
        match tokNext cs₁ with
        | (none, _) => .error "Expected operator but found end of input"
        | (some (.error e), _) => .error e
        | (some (.ok (.operator op)), cs₂) =>
          match p.prec prec cs₂ with
          | .error e => .error e
          | .ok (right, cs₃) =>
            match mkBinary op left right with
            | .error e => .error e
            | .ok e => .ok (e, cs₃)
        | (some (.ok t), _) =>
          .error ("Expected operator but found " ++ renderToken t)
      else .ok (left, cs₁)
    | some (.ok _) => .ok (left, cs₁)

/-- `Block::parse_let`: consume the `let` keyword (result discarded), expect
the binding name, expect `:`, then either a type symbol followed by `=` or
directly `=`, then parse the bound expression (`Expression::parse`, i.e.
level 3). -/
def pletF (p : ParseFns) (cs : List Char) : Except String (Line × List Char) :=
  match expectSymbol (tokNext cs).2 with
  | .error e => .error e
  | .ok (name, cs₁) =>
    match expectOperatorOf ':' cs₁ with
    | .error e => .error e
    | .ok cs₂ =>
      match tokNext cs₂ with
      | (some (.ok (.symbol ty)), cs₃) =>
        match expectOperatorOf '=' cs₃ with
        | .error e => .error e
        | .ok cs₄ =>
          match p.prec 3 cs₄ with
          | .error e => .error e
          | .ok (v, cs₅) => .ok (.letStatement name v (some ty), cs₅)
      | (some (.ok (.operator '=')), cs₃) =>
        match p.prec 3 cs₃ with
        | .error e => .error e
        | .ok (v, cs₄) => .ok (.letStatement name v none, cs₄)
      | (some (.error e), _) => .error e
      | _ => .error ("Expected type or '=' after let " ++ name ++ ":")

/-- `Block::parse_return`: consume the `return` keyword (result discarded)
and parse the returned expression. -/
def pretF (p : ParseFns) (cs : List Char) : Except String (Line × List Char) :=
  match p.prec 3 (tokNext cs).2 with
  | .error e => .error e
  | .ok (v, cs₁) => .ok (.returnStatement v, cs₁)

/-- The body of the `while let` loop of `Block::parse`: peek; end of input
ends the block, a lexical error aborts, `}` breaks (without consuming),
`let`/`return` keywords dispatch to their statement parsers, anything else
is a bare expression line; each parsed line is followed by the
end-of-line handling `alineF`. -/
def blinesF (p : ParseFns) (cs : List Char) (lines : List Line) :
    Except String (List Line × List Char) :=
  match tokPeek cs with
  | none => .ok (lines, cs)
  | some (.error e) => .error e
  | some (.ok tok) =>
    if tok = Token.symbol "let" then
      match p.plet cs with
      | .error e => .error e
      | .ok (line, cs₁) => p.aline cs₁ (lines ++ [line])
    else if tok = Token.symbol "return" then
      match p.pret cs with
      | .error e => .error e
      | .ok (line, cs₁) => p.aline cs₁ (lines ++ [line])
    else if tok = Token.operator '}' then .ok (lines, cs)
    else
      match p.prec 3 cs with
      | .error e => .error e
      | .ok (e, cs₁) => p.aline cs₁ (lines ++ [Line.expression e])

/-- The after-a-line handling of `Block::parse`: consume one token.  `;`
continues the loop, except that a `}` right after the `;` is consumed and
closes the block; a direct `}` rewrites a final bare expression line into a
`ReturnStatement` (implicit return) and closes, and is an error after any
other kind of line; any other token is an error. -/
def alineF (p : ParseFns) (cs : List Char) (lines : List Line) :
    Except String (List Line × List Char) :=
  match tokNext cs with
  | (some (.error e), _) => .error e
  | (some (.ok (Token.operator ';')), cs₁) =>
    if tokPeek cs₁ = some (.ok (.operator '}')) then
      .ok (lines, (tokNext cs₁).2)
    else p.blines cs₁ lines
  | (some (.ok (Token.operator '}')), cs₁) =>
    match lines.getLast? with
    | some (Line.expression e) =>
      .ok (lines.dropLast ++ [Line.returnStatement e], cs₁)
    | _ => .error "Expected expression before '\x7d' or ';' operator"
  | (some (.ok t), _) =>
    .error ("Expected ';' but found '" ++ renderToken t ++ "'")
  | (none, _) => .error "Expected ';' but found end of input"

/-- `<Block as Parsable>::parse`: expect `{`, then run the line loop on an
empty line list. -/
def blockF (p : ParseFns) (cs : List Char) : Except String (Block × List Char) :=
  match expectOperatorOf '{' cs with
  | .error e => .error e
  | .ok cs₁ =>
    match p.blines cs₁ [] with
    | .error e => .error e
    | .ok (lines, cs₂) => .ok (Block.mk lines, cs₂)

/-- Assemble one fuel layer from the previous one. -/
def parseStep (p : ParseFns) : ParseFns :=
  ⟨atomF p, precF p, blockF p, blinesF p, alineF p, pletF p, pretF p⟩

/-- All parse functions at depletable fuel: fuel 0 always fails with
`fuelErr`; fuel `n+1` is `parseStep` over fuel `n`. -/
def parseFns : Nat → ParseFns
  | 0 =>
    ⟨fun _ => .error fuelErr, fun _ _ => .error fuelErr,
     fun _ => .error fuelErr, fun _ _ => .error fuelErr,
     fun _ _ => .error fuelErr, fun _ => .error fuelErr,
     fun _ => .error fuelErr⟩
  | fuel + 1 => parseStep (parseFns fuel)

/-- The `prec == 0` atom layer of `Expression::parse_prec`, at given fuel. -/
def parseAtom (fuel : Nat) : List Char → Except String (Expression × List Char) :=
  (parseFns fuel).atom

/-- `Expression::parse_prec`, at given fuel. -/
def parsePrec (fuel : Nat) : Int → List Char → Except String (Expression × List Char) :=
  (parseFns fuel).prec

/-- `<Expression as Parsable>::parse`: `parse_prec` at level 3. -/
def parseExpr (fuel : Nat) (cs : List Char) : Except String (Expression × List Char) :=
  parsePrec fuel 3 cs

/-- `<Block as Parsable>::parse`, at given fuel. -/
def blockParse (fuel : Nat) : List Char → Except String (Block × List Char) :=
  (parseFns fuel).block

/-- The line loop of `Block::parse`, at given fuel. -/
def blockLines (fuel : Nat) : List Char → List Line → Except String (List Line × List Char) :=
  (parseFns fuel).blines

/-- The after-a-line handling of `Block::parse`, at given fuel. -/
def afterLine (fuel : Nat) : List Char → List Line → Except String (List Line × List Char) :=
  (parseFns fuel).aline

/-- `Block::parse_let`, at given fuel. -/
def parseLet (fuel : Nat) : List Char → Except String (Line × List Char) :=
  (parseFns fuel).plet

/-- `Block::parse_return`, at given fuel. -/
def parseReturn (fuel : Nat) : List Char → Except String (Line × List Char) :=
  (parseFns fuel).pret

/-! ### Helper lemmas about the after-a-line handling of `Block::parse` -/

/-- After a line, a `;` whose following token is `}` consumes both and closes
the block with the lines unchanged. -/
theorem afterLine_semicolon_brace (fuel : Nat) (cs cs₁ cs₂ : List Char)
    (lines : List Line)
    (h₁ : tokNext cs = (some (.ok (.operator ';')), cs₁))
    (h₂ : tokNext cs₁ = (some (.ok (.operator '}')), cs₂)) :
    afterLine (fuel + 1) cs lines = .ok (lines, cs₂) := by
  show alineF (parseFns fuel) cs lines = _
  unfold alineF
  rw [h₁]
  simp [tokPeek, h₂]

/-- After a line, a `;` not followed by `}` continues the line loop. -/
theorem afterLine_semicolon_continue (fuel : Nat) (cs cs₁ : List Char)
    (lines : List Line)
    (h₁ : tokNext cs = (some (.ok (.operator ';')), cs₁))
    (h₂ : tokPeek cs₁ ≠ some (.ok (.operator '}'))) :
    afterLine (fuel + 1) cs lines = blockLines fuel cs₁ lines := by
  show alineF (parseFns fuel) cs lines = _
  unfold alineF
  rw [h₁]
  simp only [if_neg h₂]
  rfl

/-- After a bare expression line, a direct `}` rewrites that line into a
`ReturnStatement` of the same expression and closes the block. -/
theorem afterLine_close_expression (fuel : Nat) (cs cs₁ : List Char)
    (lines : List Line) (e : Expression)
    (h₁ : tokNext cs = (some (.ok (.operator '}')), cs₁))
    (h₂ : lines.getLast? = some (.expression e)) :
    afterLine (fuel + 1) cs lines =
      .ok (lines.dropLast ++ [Line.returnStatement e], cs₁) := by
  show alineF (parseFns fuel) cs lines = _
  unfold alineF
  rw [h₁, h₂]
  rfl

/-- After a line that is not a bare expression, a direct `}` with no `;` is
an error. -/
theorem afterLine_close_error (fuel : Nat) (cs cs₁ : List Char)
    (lines : List Line)
    (h₁ : tokNext cs = (some (.ok (.operator '}')), cs₁))
    (h₂ : ∀ e, lines.getLast? ≠ some (.expression e)) :
    afterLine (fuel + 1) cs lines =
      .error "Expected expression before '\x7d' or ';' operator" := by
  show alineF (parseFns fuel) cs lines = _
  unfold alineF
  rw [h₁]
  cases h : lines.getLast? with
  | none => rfl
  | some l =>
    cases l with
    | expression e => exact absurd h (h₂ e)
    | letStatement n v t => rfl
    | returnStatement e => rfl

/-- After a line, any token other than `;` and `}` is an error naming the
expected `;`. -/
theorem afterLine_other_token (fuel : Nat) (cs cs₁ : List Char)
    (lines : List Line) (t : Token)
    (h₁ : tokNext cs = (some (.ok t), cs₁))
    (h₂ : t ≠ .operator ';') (h₃ : t ≠ .operator '}') :
    afterLine (fuel + 1) cs lines =
      .error ("Expected ';' but found '" ++ renderToken t ++ "'") := by
  show alineF (parseFns fuel) cs lines = _
  unfold alineF
  rw [h₁]
  cases t with
  | number n => rfl
  | symbol s => rfl
  | operator c =>
    split
    · rename_i heq; cases heq
    · rename_i heq
      injection heq with ha _
      injection ha with ha
      injection ha with ha
      exact absurd ha h₂
    · rename_i heq
      injection heq with ha _
      injection ha with ha
      injection ha with ha
      exact absurd ha h₃
    · rename_i heq
      injection heq with ha _
      injection ha with ha
      injection ha with ha
      subst ha
      rfl
    · rename_i heq; cases heq

/-- After a line, end of input where `;` or `}` was required is an error. -/
theorem afterLine_eof (fuel : Nat) (cs cs₁ : List Char) (lines : List Line)
    (h₁ : tokNext cs = (none, cs₁)) :
    afterLine (fuel + 1) cs lines =
      .error "Expected ';' but found end of input" := by
  show alineF (parseFns fuel) cs lines = _
  unfold alineF
  rw [h₁]

/-! ### Helper lemmas about the tokenizer -/

/-- An ASCII digit is not whitespace. -/
theorem digit_not_whitespace (c : Char) (h : isNumericChar c = true) :
    isWhitespaceChar c = false := by
  cases hw : isWhitespaceChar c
  · rfl
  · exfalso
    unfold isWhitespaceChar at hw
    simp [Char.isWhitespace] at hw
    rcases hw with ((h1 | h1) | h1) | h1 <;> subst h1 <;>
      exact absurd h (by decide)

/-- `takeWhile` over a run satisfying `p` followed by a failing element. -/
theorem takeWhile_all_append (p : Char → Bool) (ds rest : List Char) (c : Char)
    (h : ∀ d ∈ ds, p d = true) (hc : p c = false) :
    ((ds ++ c :: rest).takeWhile p) = ds := by
  induction ds with
  | nil => simp [List.takeWhile_cons, hc]
  | cons d ds ih =>
    have hd : p d = true := h d (List.mem_cons_self d ds)
    simp only [List.cons_append, List.takeWhile_cons, hd, if_true]
    rw [ih (fun x hx => h x (List.mem_cons_of_mem d hx))]

/-- `dropWhile` over a run satisfying `p` followed by a failing element. -/
theorem dropWhile_all_append (p : Char → Bool) (ds rest : List Char) (c : Char)
    (h : ∀ d ∈ ds, p d = true) (hc : p c = false) :
    ((ds ++ c :: rest).dropWhile p) = c :: rest := by
  induction ds with
  | nil => simp [List.dropWhile_cons, hc]
  | cons d ds ih =>
    have hd : p d = true := h d (List.mem_cons_self d ds)
    simp only [List.cons_append, List.dropWhile_cons, hd, if_true]
    exact ih (fun x hx => h x (List.mem_cons_of_mem d hx))

/-! ### Claim theorems -/

/-- Claim C1: after consuming an operator at level `prec`, the right operand
is parsed at the same level `prec` (so equal-tier operators chain
right-associatively), and the two concrete inputs parse to the claimed trees:
`1 + 2 * 3 * 4 + 5` to `Add(1, Add(Mul(2, Mul(3,4)), 5))` and `1 * 2 + 3`
to `Add(Mul(1,2), 3)`. -/
theorem parse_prec_right_assoc :
    (∀ (fuel : Nat) (prec : Int) (cs cs₁ cs₂ : List Char) (left : Expression)
      (op : Char),
      (if prec = 0 then parseAtom fuel cs else parsePrec fuel (prec - 1) cs) =
        .ok (left, cs₁) →
      tokNext cs₁ = (some (.ok (.operator op)), cs₂) →
      precedence op ≤ prec →
      parsePrec (fuel + 1) prec cs =
        match parsePrec fuel prec cs₂ with
        | .error e => .error e
        | .ok (right, cs₃) =>
          match mkBinary op left right with
          | .error e => .error e
          | .ok e => .ok (e, cs₃)) ∧
    parseExpr 32 ("1 + 2 * 3 * 4 + 5".toList) =
      .ok (.add (.literal 1)
        (.add (.mul (.literal 2) (.mul (.literal 3) (.literal 4)))
          (.literal 5)), []) ∧
    parseExpr 32 ("1 * 2 + 3".toList) =
      .ok (.add (.mul (.literal 1) (.literal 2)) (.literal 3), []) := by
  refine ⟨?_, rfl, rfl⟩
  intro fuel prec cs cs₁ cs₂ left op hleft htok hprec
  have hpeek : tokPeek cs₁ = some (.ok (.operator op)) := by rw [tokPeek, htok]
  show precF (parseFns fuel) prec cs = _
  unfold precF
  rw [show (if prec = 0 then (parseFns fuel).atom cs
      else (parseFns fuel).prec (prec - 1) cs) = .ok (left, cs₁) from hleft]
  simp only [hpeek, htok, if_pos hprec]
  rfl

/-- Witness for `parse_prec_right_assoc`: instantiating the step lemma at
level 2 on the input `1+2` after its left operand. -/
theorem parse_prec_right_assoc_witness :
    parsePrec 9 2 ("1+2".toList) =
      match parsePrec 8 2 ("2".toList) with
      | .error e => .error e
      | .ok (right, cs₃) =>
        match mkBinary '+' (.literal 1) right with
        | .error e => .error e
        | .ok e => .ok (e, cs₃) :=
  parse_prec_right_assoc.1 8 2 ("1+2".toList) ['+', '2'] ['2']
    (.literal 1) '+' (by rfl) (by rfl) (by decide)

/-- Claim C2: a bare expression line directly followed by the closing brace
is rewritten in place into a `ReturnStatement` of the same expression, and
parsing `{ 42 }` yields exactly one line `ReturnStatement(Literal 42)` with
`has_value()` true. -/
theorem block_implicit_return :
    (∀ (fuel : Nat) (cs cs₁ cs₂ : List Char) (acc : List Line) (tok : Token)
      (e : Expression),
      tokPeek cs = some (.ok tok) →
      tok ≠ .symbol "let" → tok ≠ .symbol "return" → tok ≠ .operator '}' →
      parsePrec (fuel + 1) 3 cs = .ok (e, cs₁) →
      tokNext cs₁ = (some (.ok (.operator '}')), cs₂) →
      blockLines (fuel + 2) cs acc =
        .ok (acc ++ [Line.returnStatement e], cs₂)) ∧
    blockParse 32 ("{ 42 }".toList) =
      .ok (.mk [.returnStatement (.literal 42)], []) ∧
    (Block.mk [.returnStatement (.literal 42)]).hasValue = true := by
  refine ⟨?_, rfl, rfl⟩
  intro fuel cs cs₁ cs₂ acc tok e hpeek hlet hret hbrace hexpr hclose
  show blinesF (parseFns (fuel + 1)) cs acc = _
  unfold blinesF
  simp only [hpeek]
  rw [if_neg hlet, if_neg hret, if_neg hbrace,
    show ParseFns.prec (parseFns (fuel + 1)) = parsePrec (fuel + 1) from rfl,
    hexpr]
  have := afterLine_close_expression fuel cs₁ cs₂
    (acc ++ [Line.expression e]) e hclose (List.getLast?_concat acc)
  rw [List.dropLast_concat] at this
  exact this

/-- Witness for `block_implicit_return`: the input `42 }` as block content
(accumulator empty) becomes the single line `ReturnStatement(Literal 42)`. -/
theorem block_implicit_return_witness :
    blockLines 17 ("42 \x7d".toList) [] =
      .ok ([Line.returnStatement (.literal 42)], []) :=
  block_implicit_return.1 15 ("42 \x7d".toList) [' ', '}'] [] []
    (.number "42") (.literal 42) (by rfl) (by decide) (by decide) (by decide)
    (by rfl) (by rfl)

/-- Claim C5: after each parsed block line, `;` continues the loop except
that a `}` right after it is consumed and closes the block; a direct `}`
after a bare expression line triggers the implicit-return rewrite; a direct
`}` after any other line is an error; any other token, and end of input,
are errors naming the expected `;`. -/
theorem after_line_dispatch :
    (∀ (fuel : Nat) (cs cs₁ cs₂ : List Char) (lines : List Line),
      tokNext cs = (some (.ok (.operator ';')), cs₁) →
      tokNext cs₁ = (some (.ok (.operator '}')), cs₂) →
      afterLine (fuel + 1) cs lines = .ok (lines, cs₂)) ∧
    (∀ (fuel : Nat) (cs cs₁ : List Char) (lines : List Line),
      tokNext cs = (some (.ok (.operator ';')), cs₁) →
      tokPeek cs₁ ≠ some (.ok (.operator '}')) →
      afterLine (fuel + 1) cs lines = blockLines fuel cs₁ lines) ∧
    (∀ (fuel : Nat) (cs cs₁ : List Char) (lines : List Line) (e : Expression),
      tokNext cs = (some (.ok (.operator '}')), cs₁) →
      lines.getLast? = some (.expression e) →
      afterLine (fuel + 1) cs lines =
        .ok (lines.dropLast ++ [Line.returnStatement e], cs₁)) ∧
    (∀ (fuel : Nat) (cs cs₁ : List Char) (lines : List Line),
      tokNext cs = (some (.ok (.operator '}')), cs₁) →
      (∀ e, lines.getLast? ≠ some (.expression e)) →
      afterLine (fuel + 1) cs lines =
        .error "Expected expression before '\x7d' or ';' operator") ∧
    (∀ (fuel : Nat) (cs cs₁ : List Char) (lines : List Line) (t : Token),
      tokNext cs = (some (.ok t), cs₁) →
      t ≠ .operator ';' → t ≠ .operator '}' →
      afterLine (fuel + 1) cs lines =
        .error ("Expected ';' but found '" ++ renderToken t ++ "'")) ∧
    (∀ (fuel : Nat) (cs cs₁ : List Char) (lines : List Line),
      tokNext cs = (none, cs₁) →
      afterLine (fuel + 1) cs lines =
        .error "Expected ';' but found end of input") :=
  ⟨afterLine_semicolon_brace, afterLine_semicolon_continue,
   afterLine_close_expression, afterLine_close_error,
   afterLine_other_token, afterLine_eof⟩

/-- Witness for `after_line_dispatch`: concrete instances of the trailing
`;}` absorption and of the let-then-`}` error. -/
theorem after_line_dispatch_witness :
    afterLine 2 ("; \x7d".toList) [Line.expression (.literal 1)] =
      .ok ([Line.expression (.literal 1)], []) ∧
    afterLine 2 ("\x7d".toList) [Line.letStatement "x" (.literal 1) none] =
      .error "Expected expression before '\x7d' or ';' operator" :=
  ⟨after_line_dispatch.1 1 ("; \x7d".toList) [' ', '}'] []
      [Line.expression (.literal 1)] (by rfl) (by rfl),
   after_line_dispatch.2.2.2.1 1 ("\x7d".toList) []
      [Line.letStatement "x" (.literal 1) none] (by rfl)
      (by intro e h; cases h)⟩

/-- Claim C6: both let-statement surface forms are accepted — the typed
form `let x: i32 = 42;` and the untyped form `let x := 42;`, in which `:`
and `=` are lexed as two separate one-character operator tokens. -/
theorem let_statement_forms :
    (∀ cs : List Char,
      tokNext (':' :: '=' :: cs) = (some (.ok (.operator ':')), '=' :: cs)) ∧
    (∀ cs : List Char,
      tokNext ('=' :: cs) = (some (.ok (.operator '=')), cs)) ∧
    parseLet 32 ("let x: i32 = 42;".toList) =
      .ok (.letStatement "x" (.literal 42) (some "i32"), [';']) ∧
    parseLet 32 ("let x := 42;".toList) =
      .ok (.letStatement "x" (.literal 42) none, [';']) ∧
    blockParse 32 ("{ let x: i32 = 42; }".toList) =
      .ok (.mk [.letStatement "x" (.literal 42) (some "i32")], []) ∧
    blockParse 32 ("{ let x := 42; }".toList) =
      .ok (.mk [.letStatement "x" (.literal 42) none], []) :=
  ⟨fun _ => rfl, fun _ => rfl, rfl, rfl, rfl, rfl⟩

/-- Claim C8: `has_value()` is true iff the last line is a
`ReturnStatement`; the empty block has no value, and parsing `{}` yields an
empty block. -/
theorem has_value_iff :
    (∀ lines : List Line,
      (Block.mk lines).hasValue = true ↔
        ∃ e, lines.getLast? = some (.returnStatement e)) ∧
    (Block.mk []).hasValue = false ∧
    blockParse 32 ("{}".toList) = .ok (.mk [], ['}']) := by
  refine ⟨?_, rfl, rfl⟩
  intro lines
  cases h : lines.getLast? with
  | none => simp [Block.hasValue, Block.lines, h]
  | some l =>
    cases l with
    | expression e => simp [Block.hasValue, Block.lines, h]
    | letStatement n v t => simp [Block.hasValue, Block.lines, h]
    | returnStatement e =>
      simp only [Block.hasValue, Block.lines, h]
      exact iff_of_true trivial ⟨e, rfl⟩

/-- Witness for `has_value_iff`: a one-line return block has a value. -/
theorem has_value_iff_witness :
    (Block.mk [Line.returnStatement (.literal 1)]).hasValue = true :=
  (has_value_iff.1 [Line.returnStatement (.literal 1)]).mpr ⟨.literal 1, rfl⟩

/-- Claim C10: parsing an empty block consumes only the opening brace — on
any input starting `{}` the parse succeeds with zero lines and `Operator }`
still the next token — while the non-empty success paths `{ 42 }` and
`{ 42; }` consume the closing brace. -/
theorem empty_block_brace_unconsumed :
    (∀ (fuel : Nat) (tail : List Char),
      blockParse (fuel + 2) ('{' :: '}' :: tail) = .ok (.mk [], '}' :: tail)) ∧
    tokPeek ['}'] = some (.ok (.operator '}')) ∧
    blockParse 32 ("{ 42 }".toList) =
      .ok (.mk [.returnStatement (.literal 42)], []) ∧
    blockParse 32 ("{ 42; }".toList) =
      .ok (.mk [.expression (.literal 42)], []) :=
  ⟨fun _ _ => rfl, rfl, rfl, rfl⟩

/-- Counterexample for claim C3: the failing parse of `{ 30; } + 12`
produces the message `Expected block with return value`, which is not the
claimed message `expected block with return value`. -/
theorem block_operand_message_counterexample :
    parseExpr 32 ("{ 30; } + 12".toList) =
      .error "Expected block with return value" ∧
    "Expected block with return value" ≠
      "expected block with return value" :=
  ⟨rfl, by decide⟩

/-- Claim C3 (amended): a block used as an expression operand that does not
satisfy `has_value()` makes the atom parse fail with the error
`Expected block with return value`, and parsing `{ 30; } + 12` fails with
that error. -/
theorem block_operand_requires_value :
    (∀ (fuel : Nat) (cs cs₁ : List Char) (b : Block),
      tokPeek cs = some (.ok (.operator '{')) →
      blockParse fuel cs = .ok (b, cs₁) →
      b.hasValue = false →
      parseAtom (fuel + 1) cs = .error "Expected block with return value") ∧
    parseExpr 32 ("{ 30; } + 12".toList) =
      .error "Expected block with return value" := by
  refine ⟨?_, rfl⟩
  intro fuel cs cs₁ b hpeek hblock hval
  show atomF (parseFns fuel) cs = _
  unfold atomF
  rw [if_pos hpeek,
    show ParseFns.block (parseFns fuel) = blockParse fuel from rfl, hblock]
  simp [hval]

/-- Witness for `block_operand_requires_value`: the block `{ 30; }` has no
value, so it is rejected as an atom. -/
theorem block_operand_requires_value_witness :
    parseAtom 32 ("{ 30; }".toList) =
      .error "Expected block with return value" :=
  block_operand_requires_value.1 31 ("{ 30; }".toList) []
    (.mk [.expression (.literal 30)]) (by rfl) (by rfl) (by rfl)

/-- Counterexample for claim C4: on `12 + { 30 }` the parse succeeds with
the block as the second (right) operand of `+`, so a `{`-initiated block is
not restricted to the leading atom position of an expression. -/
theorem block_later_operand_counterexample :
    parseExpr 32 ("12 + { 30 }".toList) =
      .ok (.add (.literal 12)
        (.block (.mk [.returnStatement (.literal 30)])), []) := rfl

/-- Claim C4 (amended): a block atom is permitted whenever the expression
parser is at level 0, which is entered at the start of every operand —
including right operands, as in `12 + { 30 }` — not only at the very first
atom of an expression. -/
theorem block_atom_any_position :
    (∀ (fuel : Nat) (cs : List Char),
      tokPeek cs = some (.ok (.operator '{')) →
      parseAtom (fuel + 1) cs =
        match blockParse fuel cs with
        | .error e => .error e
        | .ok (b, cs₁) =>
          if b.hasValue then .ok (.block b, cs₁)
          else .error "Expected block with return value") ∧
    parseExpr 32 ("12 + { 30 }".toList) =
      .ok (.add (.literal 12)
        (.block (.mk [.returnStatement (.literal 30)])), []) := by
  refine ⟨?_, rfl⟩
  intro fuel cs hpeek
  show atomF (parseFns fuel) cs = _
  unfold atomF
  rw [if_pos hpeek]
  rfl

/-- Witness for `block_atom_any_position`: the dispatch at a leading `{`. -/
theorem block_atom_any_position_witness :
    parseAtom 32 ("{ 30 }".toList) =
      match blockParse 31 ("{ 30 }".toList) with
      | .error e => .error e
      | .ok (b, cs₁) =>
        if b.hasValue then .ok (.block b, cs₁)
        else .error "Expected block with return value" :=
  block_atom_any_position.1 31 ("{ 30 }".toList) (by rfl)

/-- Counterexample for claim C7: the lexical error at a digit-letter
boundary carries the message `Number cannot be followed by a letter`, which
is not the claimed message `number cannot be followed by a letter`. -/
theorem number_letter_boundary_counterexample :
    tokNext ("456var".toList) =
      (some (.error "Number cannot be followed by a letter"), ['v', 'a', 'r']) ∧
    "Number cannot be followed by a letter" ≠
      "number cannot be followed by a letter" :=
  ⟨rfl, by decide⟩

/-- Claim C7 (amended): whenever a maximal run of digits is immediately
followed by an alphabetic character, the tokenizer fails with the lexical
error `Number cannot be followed by a letter`, leaving that following
character unconsumed. -/
theorem number_letter_boundary :
    (∀ (ds rest : List Char) (c : Char),
      ds ≠ [] → (∀ d ∈ ds, isNumericChar d = true) →
      isNumericChar c = false → isAlphabeticChar c = true →
      tokNext (ds ++ c :: rest) =
        (some (.error "Number cannot be followed by a letter"), c :: rest)) ∧
    tokNext ("456var".toList) =
      (some (.error "Number cannot be followed by a letter"),
        ['v', 'a', 'r']) := by
  refine ⟨?_, rfl⟩
  intro ds rest c hne h hc hca
  cases ds with
  | nil => exact absurd rfl hne
  | cons d ds =>
    have hd : isNumericChar d = true := h d (List.mem_cons_self d ds)
    have hw : isWhitespaceChar d = false := digit_not_whitespace d hd
    have halnum : isAlphanumericChar c = true := by
      unfold isAlphanumericChar Char.isAlphanum
      unfold isAlphabeticChar at hca
      simp [hca]
    show tokNext (d :: (ds ++ c :: rest)) = _
    rw [tokNext]
    simp only [hw, hd, Bool.false_eq_true, if_false, if_true]
    unfold nextNumber
    rw [← List.cons_append,
      takeWhile_all_append isNumericChar (d :: ds) rest c h hc,
      dropWhile_all_append isNumericChar (d :: ds) rest c h hc]
    simp [halnum]

/-- Witness for `number_letter_boundary`: the boundary in `456var`. -/
theorem number_letter_boundary_witness :
    tokNext (['4', '5', '6'] ++ 'v' :: ['a', 'r']) =
      (some (.error "Number cannot be followed by a letter"),
        'v' :: ['a', 'r']) :=
  number_letter_boundary.1 ['4', '5', '6'] ['a', 'r'] 'v'
    (by decide) (by decide) (by decide) (by decide)

/-! ### Unreachability of the invalid-operator branch (claim C9)

Every error message the parser can produce differs at character index 9 from
`Expected valid operator but found <c>` (whose index-9 character is `v`), so
that error is never returned.  `SafeMsg` captures the index-9 discriminator,
and the invariant is propagated through one fuel layer by the `…_safe`
lemmas below. -/

/-- A message that is not of the shape `Expected valid operator but found c`:
its character at index 9 is not `v`. -/
def SafeMsg (m : String) : Prop := m.data[9]? ≠ some 'v'

/-- Establish `SafeMsg` from the index-9 character. -/
theorem safeMsg_intro (m : String) (ch : Char) (h : m.data[9]? = some ch)
    (hne : ch ≠ 'v') : SafeMsg m := by
  unfold SafeMsg
  rw [h]
  intro hc
  exact hne (Option.some.inj hc)

/-- The invalid-operator message itself is not safe. -/
theorem safeMsg_not_invalid (c : Char) :
    ¬ SafeMsg ("Expected valid operator but found " ++ String.singleton c) :=
  fun hs => hs rfl

/-- The only lexical error the tokenizer produces is the number-letter
boundary message. -/
theorem tokNext_error_msg (cs : List Char) (e : String)
    (h : (tokNext cs).1 = some (.error e)) :
    e = "Number cannot be followed by a letter" := by
  induction cs with
  | nil => exact absurd h (by simp [tokNext])
  | cons c cs ih =>
    rw [tokNext] at h
    split at h
    · exact ih h
    · split at h
      · revert h
        unfold nextNumber
        split
        · split
          · intro h
            injection h with h
            injection h with h
            exact h.symm
          · intro h
            injection h with h
            cases h
        · intro h
          injection h with h
          cases h
      · split at h
        · injection h with h
          cases h
        · split at h
          · injection h with h
            cases h
          · exact absurd h (by simp)

/-- Any lexical error message is safe. -/
theorem tokNext_safe (cs : List Char) (e : String)
    (h : (tokNext cs).1 = some (.error e)) : SafeMsg e := by
  rw [tokNext_error_msg cs e h]
  exact safeMsg_intro _ 'n' rfl (by decide)

/-- Every `expect_symbol` failure message is safe. -/
theorem expectSymbol_safe (cs : List Char) (m : String)
    (h : expectSymbol cs = .error m) : SafeMsg m := by
  unfold expectSymbol at h
  split at h
  · cases h
  · injection h with h
    subst h
    exact safeMsg_intro _ 's' rfl (by decide)
  · injection h with h
    subst h
    exact safeMsg_intro _ 's' rfl (by decide)
  · rename_i e snd heq
    injection h with h
    subst h
    exact tokNext_safe cs e (by rw [heq])
  · injection h with h
    subst h
    exact safeMsg_intro _ 's' rfl (by decide)

/-- Every `expect_operator` failure message is safe. -/
theorem expectOperator_safe (cs : List Char) (m : String)
    (h : expectOperator cs = .error m) : SafeMsg m := by
  unfold expectOperator at h
  split at h
  · cases h
  · injection h with h
    subst h
    exact safeMsg_intro _ 'o' rfl (by decide)
  · injection h with h
    subst h
    exact safeMsg_intro _ 'o' rfl (by decide)
  · rename_i e snd heq
    injection h with h
    subst h
    exact tokNext_safe cs e (by rw [heq])
  · injection h with h
    subst h
    exact safeMsg_intro _ 'o' rfl (by decide)

/-- Every `expect_operator_of` failure message is safe. -/
theorem expectOperatorOf_safe (expected : Char) (cs : List Char) (m : String)
    (h : expectOperatorOf expected cs = .error m) : SafeMsg m := by
  unfold expectOperatorOf at h
  split at h
  · split at h
    · cases h
    · injection h with h
      subst h
      exact safeMsg_intro _ 'o' rfl (by decide)
  · rename_i e heq
    injection h with h
    subst h
    exact expectOperator_safe cs e heq

/-- Every number-parsing failure message is safe. -/
theorem parseNumber_safe (s : String) (m : String)
    (h : parseNumber s = .error m) : SafeMsg m := by
  unfold parseNumber at h
  split at h
  · cases h
  · injection h with h
    subst h
    exact safeMsg_intro _ ' ' rfl (by decide)

/-- An operator whose precedence does not exceed 3 is one of the four
arithmetic operators, so `mkBinary` succeeds on it. -/
theorem mkBinary_ok (op : Char) (hle : precedence op ≤ 3) (l r : Expression)
    (m : String) : mkBinary op l r ≠ .error m := by
  intro h
  unfold precedence at hle
  split at hle <;>
    first
      | exact absurd hle (by decide)
      | simp [mkBinary] at h

/-- The safety invariant over one `ParseFns` layer: no function of the layer
returns an unsafe error message (the `prec` field under levels at most 3). -/
def SafeFns (p : ParseFns) : Prop :=
  (∀ cs m, p.atom cs = .error m → SafeMsg m) ∧
  (∀ prec cs m, prec ≤ 3 → p.prec prec cs = .error m → SafeMsg m) ∧
  (∀ cs m, p.block cs = .error m → SafeMsg m) ∧
  (∀ cs lines m, p.blines cs lines = .error m → SafeMsg m) ∧
  (∀ cs lines m, p.aline cs lines = .error m → SafeMsg m) ∧
  (∀ cs m, p.plet cs = .error m → SafeMsg m) ∧
  (∀ cs m, p.pret cs = .error m → SafeMsg m)

/-- Atom parsing preserves message safety. -/
theorem atomF_safe (p : ParseFns) (hp : SafeFns p) (cs : List Char)
    (m : String) (h : atomF p cs = .error m) : SafeMsg m := by
  unfold atomF at h
  split at h
  · split at h
    · rename_i e heq
      injection h with h
      subst h
      exact hp.2.2.1 cs e heq
    · split at h
      · cases h
      · injection h with h
        subst h
        exact safeMsg_intro _ 'b' rfl (by decide)
  · split at h
    · injection h with h
      subst h
      exact safeMsg_intro _ 'e' rfl (by decide)
    · rename_i e snd heq
      injection h with h
      subst h
      exact tokNext_safe cs e (by rw [heq])
    · split at h
      · rename_i e heq
        injection h with h
        subst h
        exact parseNumber_safe _ e heq
      · cases h
    · cases h
    · split at h
      · rename_i e heq
        injection h with h
        subst h
        exact hp.2.1 3 _ e (by decide) heq
      · split at h
        · rename_i e heq
          injection h with h
          subst h
          exact expectOperatorOf_safe ')' _ e heq
        · cases h
    · injection h with h
      subst h
      exact safeMsg_intro _ 'n' rfl (by decide)

/-- Precedence climbing preserves message safety at levels at most 3. -/
theorem precF_safe (p : ParseFns) (hp : SafeFns p) (prec : Int)
    (cs : List Char) (m : String) (hle : prec ≤ 3)
    (h : precF p prec cs = .error m) : SafeMsg m := by
  unfold precF at h
  split at h
  · rename_i e heq
    injection h with h
    subst h
    by_cases hp0 : prec = 0
    · rw [if_pos hp0] at heq
      exact hp.1 cs e heq
    · rw [if_neg hp0] at heq
      exact hp.2.1 (prec - 1) cs e (by omega) heq
  · rename_i left cs₁ heqLeft
    split at h
    · cases h
    · rename_i e heqPeek
      injection h with h
      subst h
      exact tokNext_safe cs₁ e heqPeek
    · rename_i c heqPeek
      split at h
      · rename_i hguard
        split at h
        · injection h with h
          subst h
          exact safeMsg_intro _ 'o' rfl (by decide)
        · rename_i e snd heqNext
          injection h with h
          subst h
          exact tokNext_safe cs₁ e (by rw [heqNext])
        · rename_i op cs₂ heqNext
          split at h
          · rename_i e heqRec
            injection h with h
            subst h
            exact hp.2.1 prec cs₂ e hle heqRec
          · split at h
            · rename_i e heqMk
              injection h with h
              subst h
              exfalso
              have hpk : tokPeek cs₁ = some (.ok (.operator op)) := by
                rw [tokPeek, heqNext]
              have hoc := heqPeek.symm.trans hpk
              injection hoc with hoc
              injection hoc with hoc
              injection hoc with hoc
              subst hoc
              exact mkBinary_ok _ (le_trans hguard hle) _ _ e heqMk
            · cases h
        · injection h with h
          subst h
          exact safeMsg_intro _ 'o' rfl (by decide)
      · cases h
    · cases h

/-- Block parsing preserves message safety. -/
theorem blockF_safe (p : ParseFns) (hp : SafeFns p) (cs : List Char)
    (m : String) (h : blockF p cs = .error m) : SafeMsg m := by
  unfold blockF at h
  split at h
  · rename_i e heq
    injection h with h
    subst h
    exact expectOperatorOf_safe '{' cs e heq
  · split at h
    · rename_i e heq
      injection h with h
      subst h
      exact hp.2.2.2.1 _ [] e heq
    · cases h

/-- The block line loop preserves message safety. -/
theorem blinesF_safe (p : ParseFns) (hp : SafeFns p) (cs : List Char)
    (lines : List Line) (m : String) (h : blinesF p cs lines = .error m) :
    SafeMsg m := by
  unfold blinesF at h
  split at h
  · cases h
  · rename_i e heq
    injection h with h
    subst h
    exact tokNext_safe cs e heq
  · split at h
    · split at h
      · rename_i e heq
        injection h with h
        subst h
        exact hp.2.2.2.2.2.1 cs e heq
      · exact hp.2.2.2.2.1 _ _ m h
    · split at h
      · split at h
        · rename_i e heq
          injection h with h
          subst h
          exact hp.2.2.2.2.2.2 cs e heq
        · exact hp.2.2.2.2.1 _ _ m h
      · split at h
        · cases h
        · split at h
          · rename_i e heq
            injection h with h
            subst h
            exact hp.2.1 3 cs e (by decide) heq
          · exact hp.2.2.2.2.1 _ _ m h

/-- The after-a-line handling preserves message safety. -/
theorem alineF_safe (p : ParseFns) (hp : SafeFns p) (cs : List Char)
    (lines : List Line) (m : String) (h : alineF p cs lines = .error m) :
    SafeMsg m := by
  unfold alineF at h
  split at h
  · rename_i e snd heq
    injection h with h
    subst h
    exact tokNext_safe cs e (by rw [heq])
  · split at h
    · cases h
    · exact hp.2.2.2.1 _ _ m h
  · split at h
    · cases h
    · injection h with h
      subst h
      exact safeMsg_intro _ 'e' rfl (by decide)
  · injection h with h
    subst h
    exact safeMsg_intro _ '\'' rfl (by decide)
  · injection h with h
    subst h
    exact safeMsg_intro _ '\'' rfl (by decide)

/-- Let-statement parsing preserves message safety. -/
theorem pletF_safe (p : ParseFns) (hp : SafeFns p) (cs : List Char)
    (m : String) (h : pletF p cs = .error m) : SafeMsg m := by
  unfold pletF at h
  split at h
  · rename_i e heq
    injection h with h
    subst h
    exact expectSymbol_safe _ e heq
  · split at h
    · rename_i e heq
      injection h with h
      subst h
      exact expectOperatorOf_safe ':' _ e heq
    · rename_i cs₂ heqColon
      split at h
      · split at h
        · rename_i e heq
          injection h with h
          subst h
          exact expectOperatorOf_safe '=' _ e heq
        · split at h
          · rename_i e heq
            injection h with h
            subst h
            exact hp.2.1 3 _ e (by decide) heq
          · cases h
      · split at h
        · rename_i e heq
          injection h with h
          subst h
          exact hp.2.1 3 _ e (by decide) heq
        · cases h
      · rename_i e snd heq
        injection h with h
        subst h
        exact tokNext_safe cs₂ e (by rw [heq])
      · injection h with h
        subst h
        exact safeMsg_intro _ 't' rfl (by decide)

/-- Return-statement parsing preserves message safety. -/
theorem pretF_safe (p : ParseFns) (hp : SafeFns p) (cs : List Char)
    (m : String) (h : pretF p cs = .error m) : SafeMsg m := by
  unfold pretF at h
  split at h
  · rename_i e heq
    injection h with h
    subst h
    exact hp.2.1 3 _ e (by decide) heq
  · cases h

/-- One fuel layer preserves the safety invariant. -/
theorem parseStep_safe (p : ParseFns) (hp : SafeFns p) :
    SafeFns (parseStep p) :=
  ⟨fun cs m h => atomF_safe p hp cs m h,
   fun prec cs m hle h => precF_safe p hp prec cs m hle h,
   fun cs m h => blockF_safe p hp cs m h,
   fun cs lines m h => blinesF_safe p hp cs lines m h,
   fun cs lines m h => alineF_safe p hp cs lines m h,
   fun cs m h => pletF_safe p hp cs m h,
   fun cs m h => pretF_safe p hp cs m h⟩

/-- The safety invariant holds at every fuel. -/
theorem parseFns_safe (fuel : Nat) : SafeFns (parseFns fuel) := by
  induction fuel with
  | zero =>
    refine ⟨fun cs m h => ?_, fun prec cs m _ h => ?_, fun cs m h => ?_,
      fun cs lines m h => ?_, fun cs lines m h => ?_, fun cs m h => ?_,
      fun cs m h => ?_⟩ <;>
    · injection h with h
      subst h
      exact safeMsg_intro _ 'f' rfl (by decide)
  | succ n ih => exact parseStep_safe (parseFns n) ih

/-- Claim C9: operator precedences are 1 for `*` `/`, 2 for `+` `-`, and 100
for every other character; an operator is consumed only when its precedence
is at most the current level, which never exceeds 3, so the consumed
operator is always one of the four arithmetic operators and the
`Expected valid operator but found` branch is unreachable for every
input. -/
theorem invalid_operator_unreachable :
    (precedence '*' = 1 ∧ precedence '/' = 1 ∧ precedence '+' = 2 ∧
      precedence '-' = 2) ∧
    (∀ c : Char, c ∉ (['*', '/', '+', '-'] : List Char) →
      precedence c = 100) ∧
    (∀ (op : Char) (prec : Int) (l r : Expression) (m : String),
      precedence op ≤ prec → prec ≤ 3 → mkBinary op l r ≠ .error m) ∧
    (∀ (fuel : Nat) (prec : Int) (cs : List Char) (m : String) (c : Char),
      prec ≤ 3 → parsePrec fuel prec cs = .error m →
      m ≠ "Expected valid operator but found " ++ String.singleton c) := by
  refine ⟨⟨rfl, rfl, rfl, rfl⟩, ?_, ?_, ?_⟩
  · intro c hc
    unfold precedence
    split
    · exact absurd (by simp) hc
    · exact absurd (by simp) hc
    · exact absurd (by simp) hc
    · exact absurd (by simp) hc
    · rfl
    · rfl
  · intro op prec l r m h₁ h₂
    exact mkBinary_ok op (le_trans h₁ h₂) l r m
  · intro fuel prec cs m c hle h hm
    subst hm
    exact safeMsg_not_invalid c
      ((parseFns_safe fuel).2.1 prec cs _ hle h)

/-- Witness for `invalid_operator_unreachable`: the failing parse of `1+`
ends with an end-of-input error, which is not an invalid-operator error. -/
theorem invalid_operator_unreachable_witness :
    precedence ';' = 100 ∧
    ("Expected expression but found end of input" : String) ≠
      "Expected valid operator but found " ++ String.singleton '+' :=
  ⟨invalid_operator_unreachable.2.1 ';' (by decide),
   invalid_operator_unreachable.2.2.2 9 3 ("1+".toList) _ '+'
     (by decide) (by rfl)⟩

end LangFE
